import Mathlib

/-!
Verification of the zonal-statistics engine of `zonal_stats.py`
(eoxhub-workspaces/helpers).

Shallow embedding conventions:
* A raster pixel value is a float; we model it as `Pix`: either a finite
  rational (`Pix.fin q`, exact arithmetic standing in for floating point)
  or `Pix.nonfin`, a non-finite value in the sense of `np.isfinite`
  (IEEE NaN; NaN propagation through `np.min/max/mean/std` is modelled).
* `rasterio.mask.mask(src, [geom], crop=True)` (with its default
  `filled=True`) returns the cropped window of the raster with every pixel
  outside the geometry set to the dataset's nodata value, or to 0 when the
  dataset declares no nodata.  We model the cropped window of one band as a
  list of pairs `(inside?, stored value)` and the fill step as `maskFill`.
* A geometry's interaction with one raster is `Geom`: `none` when the
  `mask` call raises (geometry outside the raster extent, resource error),
  otherwise the per-band cropped windows.
* Python `None` / floats / strings / dicts / lists that flow through the
  time-series column are modelled by `PyVal`; Python `dict` is an
  insertion-ordered association list with `dictInsert` giving the
  update-in-place-keep-position semantics of Python dict assignment.
* `np.std` is the population standard deviation (`ddof = 0`), i.e. the
  square root of the population variance.  The square root of a rational
  is not rational, so statistics records carry the square of the std
  (`stdSq`, the population variance), which determines the std (the square
  root is injective on nonnegative reals).
-/

/-- A raster pixel value: a finite real number (modelled exactly as a
rational) or a non-finite float (NaN; `np.isfinite` is false on it, it
compares unequal to every number, and it propagates through
`np.min/max/mean/std`). -/
inductive Pix : Type where
  | fin : ℚ → Pix
  | nonfin : Pix
deriving DecidableEq, Repr

/-- `np.isfinite` on one pixel value. -/
def Pix.isFinite : Pix → Bool
  | .fin _ => true
  | .nonfin => false

/-- The validity test of `compute_statistics` (lines 74-77):
`valid_mask = data != nodata` when the raster declares a nodata sentinel,
`valid_mask = np.isfinite(data)` otherwise.  Note that a non-finite value
compares unequal to any numeric sentinel, hence is *valid* when a sentinel
is declared. -/
def isValidPix (nodata : Option ℚ) (p : Pix) : Bool :=
  match nodata with
  | some nd => decide (p ≠ Pix.fin nd)
  | none => p.isFinite

/-- The finite values of a pixel list, in order. -/
def finParts (l : List Pix) : List ℚ :=
  l.filterMap (fun p => match p with | .fin q => some q | .nonfin => none)

/-- Whether every pixel of the list is finite (no NaN). -/
def allFinite (l : List Pix) : Bool :=
  l.all Pix.isFinite

/-- `float(np.min(a))`: NaN if any element is NaN, else the least element.
(The empty case is unreachable in the program: it is only applied when
`valid_pixels > 0`.) -/
def npMin (l : List Pix) : Pix :=
  if allFinite l then
    match finParts l with
    | [] => .nonfin
    | q :: qs => .fin (qs.foldl min q)
  else .nonfin

/-- `float(np.max(a))`: NaN if any element is NaN, else the greatest element. -/
def npMax (l : List Pix) : Pix :=
  if allFinite l then
    match finParts l with
    | [] => .nonfin
    | q :: qs => .fin (qs.foldl max q)
  else .nonfin

/-- `float(np.mean(a))`: NaN if any element is NaN, else the arithmetic mean. -/
def npMean (l : List Pix) : Pix :=
  if allFinite l then .fin ((finParts l).sum / ((finParts l).length : ℚ))
  else .nonfin

/-- Population variance (`ddof = 0`): the mean squared deviation from the mean. -/
def popVar (l : List ℚ) : ℚ :=
  let μ := l.sum / (l.length : ℚ)
  (l.map (fun x => (x - μ) ^ 2)).sum / (l.length : ℚ)

/-- The square of `float(np.std(a))`: NaN if any element is NaN, else the
population variance of the list (`np.std` uses `ddof = 0`). -/
def npVarSq (l : List Pix) : Pix :=
  if allFinite l then .fin (popVar (finParts l))
  else .nonfin

/-- One band's statistics for one geometry: the values stored (without the
`<band_label>_` key prefixes) in the dict appended to `band_stats` in
`compute_statistics`.  `stdSq` carries the square of the `_std` entry (the
population variance), see the module comment. -/
structure BandStats : Type where
  min : Option Pix
  max : Option Pix
  mean : Option Pix
  stdSq : Option Pix
  count : Nat
  valid : Nat
  invalid : Nat
deriving DecidableEq, Repr

/-- The record substituted when `mask` raises for a geometry
(`compute_statistics` lines 60-68): all statistics `None`, all counts 0. -/
def failRecord : BandStats :=
  { min := none, max := none, mean := none, stdSq := none,
    count := 0, valid := 0, invalid := 0 }

/-- Lines 71-102 of `compute_statistics`, applied to the (already filled)
band data of one geometry's cropped window:
`total_pixels = data.size`, the validity mask, `valid_pixels`,
`invalid_pixels = total_pixels - valid_pixels`, `valid_data = data[valid_mask]`,
and the two result branches (`valid_pixels == 0` vs statistics). -/
def statsOfData (nodata : Option ℚ) (data : List Pix) : BandStats :=
  let total_pixels := data.length
  let valid_data := data.filter (isValidPix nodata)
  let valid_pixels := valid_data.length
  let invalid_pixels := total_pixels - valid_pixels
  if valid_pixels = 0 then
    { min := none, max := none, mean := none, stdSq := none,
      count := total_pixels, valid := 0, invalid := invalid_pixels }
  else
    { min := some (npMin valid_data), max := some (npMax valid_data),
      mean := some (npMean valid_data), stdSq := some (npVarSq valid_data),
      count := total_pixels, valid := valid_pixels, invalid := invalid_pixels }

/-- One band's cropped window before the fill step: for each pixel of the
window, whether it lies inside (or on the boundary of) the geometry, and
the value stored in the raster there.  (The 2-D window is linearised
row-major; all statistics are order-insensitive.) -/
abbrev Window := List (Bool × Pix)

/-- The outcome of `mask(src, [geom], crop=True)` for one geometry:
`none` when the call raises (geometry not overlapping the raster extent,
resource/format error), otherwise `out_image` as the per-band list of
cropped windows (indexed by `band - 1`). -/
abbrev Geom := Option (List Window)

/-- The fill step of `rasterio.mask.mask` with `filled=True` (the default
used by `compute_statistics`): pixels outside the geometry are set to the
dataset's nodata value, or to 0 when no nodata is declared. -/
def maskFill (nodata : Option ℚ) (w : Window) : List Pix :=
  w.map (fun p => if p.1 then p.2 else Pix.fin (nodata.getD 0))

/-- The body of the geometry loop of `compute_statistics` (lines 55-102)
for one band index (1-based, as in `src.indexes`) and one geometry:
the `except` branch yields `failRecord`; otherwise
`data = out_image[band - 1]` is filled and reduced.
(`band - 1` is always in range in the program since `band ∈ src.indexes`;
the `getD` default is never taken.) -/
def geomBandStats (nodata : Option ℚ) (band : Nat) (g : Geom) : BandStats :=
  match g with
  | none => failRecord
  | some windows => statsOfData nodata (maskFill nodata (windows.getD (band - 1) []))

/-- Line 50 of `compute_statistics`:
`band_name = band_names[i] if band_names and i < len(band_names) else f"band_{band}"`.
A missing list, an empty list (falsy in Python) and an index past the end
all fall back to the positional label. -/
def bandLabel (bandNames : Option (List String)) (i band : Nat) : String :=
  match bandNames with
  | none => "band_" ++ toString band
  | some names => ((names.get? i).getD ("band_" ++ toString band))

/-- A Python value as it appears in the `statistics` / `timeseries`
columns: a string, a float (finite, or non-finite for NaN), `None`, a
dict (insertion-ordered association list, keys unique by construction in
Python), or a list. -/
inductive PyVal : Type where
  | str : String → PyVal
  | num : ℚ → PyVal
  | none_ : PyVal
  | nonfin : PyVal
  | dict : List (String × PyVal) → PyVal
  | list : List PyVal → PyVal

/-- Python dict assignment `d[k] = v` on an insertion-ordered association
list: if the key is present its value is replaced in place (position
kept), otherwise the pair is appended at the end. -/
def dictInsert (d : List (String × PyVal)) (k : String) (v : PyVal) : List (String × PyVal) :=
  if (d.map Prod.fst).contains k then
    d.map (fun p => if p.1 = k then (k, v) else p)
  else d ++ [(k, v)]

/-- Python `d.update(e)` (also `{**d, **e}`): insert every pair of `e`
into `d`, left to right. -/
def dictMerge (d e : List (String × PyVal)) : List (String × PyVal) :=
  e.foldl (fun acc p => dictInsert acc p.1 p.2) d

/-- The Python value stored for one statistics field: `None`, a finite
float, or NaN. -/
def optPixToPy : Option Pix → PyVal
  | Option.none => .none_
  | some (.fin q) => .num q
  | some .nonfin => .nonfin

/-- The dict literal appended to `band_stats` for one band and one
geometry (`compute_statistics` lines 60-68, 84-92 and 94-102), keyed by
the band's display label.  The `_std` entry carries the square of the
Python value (see the module comment on `stdSq`). -/
def bandStatsToDict (label : String) (s : BandStats) : List (String × PyVal) :=
  [(label ++ "_min", optPixToPy s.min),
   (label ++ "_max", optPixToPy s.max),
   (label ++ "_mean", optPixToPy s.mean),
   (label ++ "_std", optPixToPy s.stdSq),
   (label ++ "_count", .num (s.count : ℚ)),
   (label ++ "_valid", .num (s.valid : ℚ)),
   (label ++ "_invalid", .num (s.invalid : ℚ))]

/-- One band/geometry step of `compute_statistics`: the labelled dict for
the outcome of masking, filling and reducing. -/
def bandDict (nodata : Option ℚ) (label : String) (band : Nat) (g : Geom) : List (String × PyVal) :=
  bandStatsToDict label (geomBandStats nodata band g)

/-- One input raster as `compute_statistics` sees it: the filename's last
component, the dataset's nodata sentinel, its band count (`src.indexes`
is `[1, ..., count]`), and, per geometry of the feature collection (in
order), the outcome of `mask(src, [geom], crop=True)`. -/
structure Tiff : Type where
  name : String
  nodata : Option ℚ
  count : Nat
  geoms : List Geom

/-- `compute_statistics` (lines 38-117): the outer loop over
`src.indexes` builds `stats_list` (one list per band, one dict per
geometry); the merge loop then builds, for each geometry index, the union
by key (`geom_stats.update(band_stats[i])`) of all its band dicts, in band
order.  Returns one combined record per geometry, in feature order. -/
def compute_statistics (t : Tiff) (bandNames : Option (List String)) : List (List (String × PyVal)) :=
  let stats_list := (List.range t.count).map (fun i =>
    t.geoms.map (fun g => bandDict t.nodata (bandLabel bandNames i (i + 1)) (i + 1) g))
  (List.range t.geoms.length).map (fun i =>
    stats_list.foldl (fun acc band_stats => dictMerge acc (band_stats.getD i [])) [])

/-- The geometry indices named in the `logging.warning` calls of
`compute_statistics` (line 59), in emission order: for every band, every
geometry whose `mask` call raised. -/
def maskWarnings (t : Tiff) : List Nat :=
  ((List.range t.count).map (fun _ =>
    ((t.geoms.enum.filter (fun p => p.2.isNone)).map Prod.fst))).flatten

/-- Whether a character matches the regex class `[-_]`. -/
def isSepChar (c : Char) : Bool :=
  c = '-' || c = '_'

/-- Take exactly `n` characters matching `\d` from the front of the
input, returning them and the rest.  (We model `\d` as the ASCII decimal
digits.) -/
def takeDigits : Nat → List Char → Option (List Char × List Char)
  | 0, cs => some ([], cs)
  | n + 1, [] => if n = 0 then none else none
  | n + 1, c :: cs =>
    if c.isDigit then
      (takeDigits n cs).map (fun p => (c :: p.1, p.2))
    else none

/-- Consume an optional `[-_]?` separator.  Because `[-_]` and `\d` are
disjoint character classes, the greedy `?` is deterministic here: the
separator is consumed exactly when present. -/
def takeSep : List Char → List Char × List Char
  | [] => ([], [])
  | c :: cs => if isSepChar c then ([c], cs) else ([], c :: cs)

/-- Match the regex `\d{4}[-_]?\d{2}[-_]?\d{2}` anchored at the front of
the input, returning the matched characters (the capture group of line 32
of `zonal_stats.py`). -/
def matchDateAt (cs : List Char) : Option (List Char) :=
  match takeDigits 4 cs with
  | none => none
  | some (y, cs1) =>
    let s1 := takeSep cs1
    match takeDigits 2 s1.2 with
    | none => none
    | some (m, cs2) =>
      let s2 := takeSep cs2
      match takeDigits 2 s2.2 with
      | none => none
      | some (d, _) => some (y ++ s1.1 ++ m ++ s2.1 ++ d)

/-- `re.search`: the match at the leftmost starting position where the
pattern matches, if any. -/
def searchDate : List Char → Option (List Char)
  | [] => none
  | c :: cs =>
    match matchDateAt (c :: cs) with
    | some m => some m
    | none => searchDate cs

/-- The natural number denoted by a list of decimal digit characters. -/
def digitsToNat (cs : List Char) : Nat :=
  cs.foldl (fun n c => 10 * n + (c.toNat - Char.toNat '0')) 0

/-- The Gregorian leap-year rule used by `datetime`. -/
def isLeap (y : Nat) : Bool :=
  (y % 4 = 0 && y % 100 ≠ 0) || y % 400 = 0

/-- Number of days of month `m` of year `y` (as validated by `datetime`). -/
def daysInMonth (y m : Nat) : Nat :=
  if m = 2 then (if isLeap y then 29 else 28)
  else if m = 4 || m = 6 || m = 9 || m = 11 then 30
  else 31

/-- Whether `datetime.strptime(..., "%Y%m%d")` accepts the date: year in
`MINYEAR..MAXYEAR` (1..9999), month 1..12, day within the month.  On any
other value `strptime` raises `ValueError`. -/
def validDate (y m d : Nat) : Bool :=
  1 ≤ y && y ≤ 9999 && 1 ≤ m && m ≤ 12 && 1 ≤ d && d ≤ daysInMonth y m

/-- `extract_date_from_filename` (lines 30-36 of `zonal_stats.py`):
search for `(\d{4}[-_]?\d{2}[-_]?\d{2})`; on a match, strip `[-_]` from
the matched text and parse the remaining eight digits with
`datetime.strptime(date_str, "%Y%m%d")` — which *raises* `ValueError`
when they do not form a valid calendar date (modelled as `Except.error`);
with no match, return `None` (modelled as `Except.ok none`). -/
def extract_date_from_filename (filename : String) : Except String (Option (Nat × Nat × Nat)) :=
  match searchDate filename.toList with
  | none => .ok none
  | some m =>
    let ds := m.filter (fun c => !(isSepChar c))
    let y := digitsToNat (ds.take 4)
    let mo := digitsToNat ((ds.drop 4).take 2)
    let dd := digitsToNat (ds.drop 6)
    if validDate y mo dd then .ok (some (y, mo, dd)) else .error "ValueError"

/-- Zero-pad a number to two digits (`%m` / `%d` of `strftime`). -/
def pad2 (n : Nat) : String :=
  if n < 10 then "0" ++ toString n else toString n

/-- Zero-pad a number to four digits (`%Y` of `strftime`; for years below
1000 the C library padding is platform-dependent, but every year parsed
here comes from exactly four digit characters, and we model the common
4-digit padding). -/
def pad4 (n : Nat) : String :=
  if n < 10 then "000" ++ toString n
  else if n < 100 then "00" ++ toString n
  else if n < 1000 then "0" ++ toString n
  else toString n

/-- Lines 165-166 of `main`:
`date = extract_date_from_filename(os.path.basename(tiff))` followed by
`date_key = date.strftime("%Y-%m-%d") if date else os.path.basename(tiff)`,
applied to the filename's last component.  A `ValueError` raised by
`strptime` propagates (the run aborts). -/
def dateKey (basename : String) : Except String String :=
  match extract_date_from_filename basename with
  | .error e => .error e
  | .ok none => .ok basename
  | .ok (some (y, m, d)) => .ok (pad4 y ++ "-" ++ pad2 m ++ "-" ++ pad2 d)

/-- One comprehension step of `convert_ts`: the dict literal
`{"date": k, **v}`.  Python `**v` requires `v` to be a mapping and raises
`TypeError` otherwise; when `v` itself holds a `"date"` key, its value
overwrites the mapping key (dict-literal semantics). -/
def entryOfPair (kv : String × PyVal) : Except String PyVal :=
  match kv.2 with
  | .dict e => .ok (.dict (dictMerge [("date", .str kv.1)] e))
  | _ => .error "TypeError"

/-- `convert_ts` (lines 154-160 of `zonal_stats.py`): a dict value becomes
`[{"date": k, **v} for k, v in value.items()]` (in insertion order), a
list passes through unchanged, and any other value becomes `[]`. -/
def convert_ts (value : PyVal) : Except String PyVal :=
  match value with
  | .dict d => (d.mapM entryOfPair).map PyVal.list
  | .list l => .ok (.list l)
  | _ => .ok (.list [])

/-- Lines 175-177 of `main`: `entry = {"date": date_key}` followed by
`entry.update(stat)`. -/
def mkEntryPy (date_key : String) (stat : List (String × PyVal)) : PyVal :=
  .dict (dictMerge [("date", .str date_key)] stat)

/-- The per-feature append loop of `main` (lines 171-178): for each index
`i` of the statistics list, the entry for this raster is appended to
feature `i`'s series.  In the program the statistics list always has
exactly one record per feature; a feature beyond it would keep its series
unchanged, and a record beyond the feature collection is unreachable. -/
def appendEntries (date_key : String) (stats : List (List (String × PyVal)))
    (tss : List (List PyVal)) : List (List PyVal) :=
  match stats, tss with
  | st :: sts, ts :: rest => (ts ++ [mkEntryPy date_key st]) :: appendEntries date_key sts rest
  | [], rest => rest
  | _ :: _, [] => []

/-- The multi-raster loop of `main` (lines 163-178): for each TIFF in
order, derive its date key (a `strptime` failure aborts the run), compute
its statistics, and append one dated entry per feature to that feature's
time series. -/
def processTiffs (bandNames : Option (List String)) (tss : List (List PyVal)) :
    List Tiff → Except String (List (List PyVal))
  | [] => .ok tss
  | t :: rest =>
    match dateKey t.name with
    | .error e => .error e
    | .ok key => processTiffs bandNames (appendEntries key (compute_statistics t bandNames) tss) rest

/-! Basic lemmas about the statistics reducer. -/

theorem statsOfData_count (nodata : Option ℚ) (data : List Pix) :
    (statsOfData nodata data).count = data.length := by
  unfold statsOfData
  by_cases h : (data.filter (isValidPix nodata)).length = 0 <;> simp [h]

theorem statsOfData_valid (nodata : Option ℚ) (data : List Pix) :
    (statsOfData nodata data).valid = (data.filter (isValidPix nodata)).length := by
  unfold statsOfData
  by_cases h : (data.filter (isValidPix nodata)).length = 0 <;> simp [h]

theorem statsOfData_invalid (nodata : Option ℚ) (data : List Pix) :
    (statsOfData nodata data).invalid =
      data.length - (data.filter (isValidPix nodata)).length := by
  unfold statsOfData
  by_cases h : (data.filter (isValidPix nodata)).length = 0 <;> simp [h]

/-- C3: for every band and geometry, in all three outcomes (normal
statistics, zero-valid-pixel record, and the substitute record after a
`mask` failure), the produced record satisfies
`count = valid + invalid` exactly. -/
theorem count_eq_valid_add_invalid (nodata : Option ℚ) (band : Nat) (g : Geom) :
    (geomBandStats nodata band g).count =
      (geomBandStats nodata band g).valid + (geomBandStats nodata band g).invalid := by
  cases g with
  | none => rfl
  | some windows =>
    show (statsOfData nodata _).count = (statsOfData nodata _).valid + (statsOfData nodata _).invalid
    rw [statsOfData_count, statsOfData_valid, statsOfData_invalid]
    have hle := List.length_filter_le (isValidPix nodata)
      (maskFill nodata (windows.getD (band - 1) []))
    omega

/-- C6: a pixel is invalid iff it equals the declared nodata sentinel
(exact equality; a non-finite value never equals a numeric sentinel), and,
with no sentinel declared, iff it is not finite; the reducer's
`valid`/`invalid` counts are exactly the sizes of the two classes. -/
theorem validity_classifier_spec :
    (∀ (nd : ℚ) (p : Pix), isValidPix (some nd) p = false ↔ p = Pix.fin nd) ∧
    (∀ p : Pix, isValidPix none p = false ↔ p.isFinite = false) ∧
    (∀ (nodata : Option ℚ) (data : List Pix),
      (statsOfData nodata data).valid = (data.filter (isValidPix nodata)).length ∧
      (statsOfData nodata data).invalid =
        data.length - (data.filter (isValidPix nodata)).length) := by
  refine ⟨?_, ?_, ?_⟩
  · intro nd p
    simp [isValidPix]
  · intro p
    simp [isValidPix]
  · intro nodata data
    exact ⟨statsOfData_valid nodata data, statsOfData_invalid nodata data⟩

/-- C4: when extraction succeeds but no pixel is valid, the record has
all four statistics `None`, `count` equal to the full pixel count of the
cropped window, and `invalid` equal to that same total. -/
theorem zero_valid_record (nodata : Option ℚ) (band : Nat) (windows : List Window)
    (h : (geomBandStats nodata band (some windows)).valid = 0) :
    (geomBandStats nodata band (some windows)).min = none ∧
    (geomBandStats nodata band (some windows)).max = none ∧
    (geomBandStats nodata band (some windows)).mean = none ∧
    (geomBandStats nodata band (some windows)).stdSq = none ∧
    (geomBandStats nodata band (some windows)).count = (windows.getD (band - 1) []).length ∧
    (geomBandStats nodata band (some windows)).invalid = (windows.getD (band - 1) []).length := by
  have hlen : (maskFill nodata (windows.getD (band - 1) [])).length =
      (windows.getD (band - 1) []).length := List.length_map _ _
  rw [geomBandStats] at h ⊢
  rw [statsOfData_valid] at h
  unfold statsOfData
  simp only [h, if_pos rfl, Nat.sub_zero]
  exact ⟨rfl, rfl, rfl, rfl, hlen, hlen⟩

theorem zero_valid_record_witness :
    (geomBandStats (some 9) 1 (some [[(true, Pix.fin 9), (false, Pix.fin 3)]])).valid = 0 ∧
    ((geomBandStats (some 9) 1 (some [[(true, Pix.fin 9), (false, Pix.fin 3)]])).min = none ∧
     (geomBandStats (some 9) 1 (some [[(true, Pix.fin 9), (false, Pix.fin 3)]])).max = none ∧
     (geomBandStats (some 9) 1 (some [[(true, Pix.fin 9), (false, Pix.fin 3)]])).mean = none ∧
     (geomBandStats (some 9) 1 (some [[(true, Pix.fin 9), (false, Pix.fin 3)]])).stdSq = none ∧
     (geomBandStats (some 9) 1 (some [[(true, Pix.fin 9), (false, Pix.fin 3)]])).count =
       (([[(true, Pix.fin 9), (false, Pix.fin 3)]] : List Window).getD 0 []).length ∧
     (geomBandStats (some 9) 1 (some [[(true, Pix.fin 9), (false, Pix.fin 3)]])).invalid =
       (([[(true, Pix.fin 9), (false, Pix.fin 3)]] : List Window).getD 0 []).length) :=
  ⟨by decide, zero_valid_record (some 9) 1 [[(true, Pix.fin 9), (false, Pix.fin 3)]] (by decide)⟩

/-- C2: the temporal key derivation is *not* total.  The spec's three
examples behave as documented, but a filename whose first eight-digit run
is not a valid calendar date (month 13 and day 99 here, or a pure version
number such as `12345678` read as month 56 / day 78) makes
`datetime.strptime` raise `ValueError`, which `extract_date_from_filename`
does not catch: the run aborts instead of falling back to the filename. -/
theorem temporal_key_eval :
    dateKey "scene_2023-05-14.tif" = .ok "2023-05-14" ∧
    dateKey "scene_20230514_v2.tif" = .ok "2023-05-14" ∧
    dateKey "scene_noDate.tif" = .ok "scene_noDate.tif" ∧
    dateKey "scene_20231399.tif" = .error "ValueError" ∧
    dateKey "build_12345678.tif" = .error "ValueError" :=
  ⟨rfl, rfl, rfl, rfl, rfl⟩

/-- C10: a supplied band-names list shorter than the band count is legal:
an index inside the list yields the supplied name, an index at or past its
end yields the positional fallback `band_<i>` with `i` the 1-based band
index, and compilation still emits one combined record per feature. -/
theorem band_label_fallback :
    (∀ (names : List String) (i : Nat) (nm : String),
        names.get? i = some nm → bandLabel (some names) i (i + 1) = nm) ∧
    (∀ (names : List String) (i : Nat),
        names.length ≤ i → bandLabel (some names) i (i + 1) = "band_" ++ toString (i + 1)) ∧
    (∀ (t : Tiff) (bandNames : Option (List String)),
        (compute_statistics t bandNames).length = t.geoms.length) := by
  refine ⟨?_, ?_, ?_⟩
  · intro names i nm h
    rw [List.get?_eq_getElem?] at h
    simp [bandLabel, h]
  · intro names i h
    have hnone : names[i]? = none := by
      rw [← List.get?_eq_getElem?]
      exact List.get?_eq_none.mpr h
    simp [bandLabel, hnone]
  · intro t bandNames
    simp [compute_statistics]

theorem band_label_fallback_witness :
    (["red"].get? 0 = some "red" ∧ bandLabel (some ["red"]) 0 1 = "red") ∧
    (["red"].length ≤ 1 ∧ bandLabel (some ["red"]) 1 2 = "band_2") ∧
    (compute_statistics (Tiff.mk "t" none 3 [some [[(true, Pix.fin 1)]]]) (some ["red"])).length =
      (Tiff.mk "t" none 3 [some [[(true, Pix.fin 1)]]]).geoms.length :=
  ⟨⟨rfl, band_label_fallback.1 ["red"] 0 "red" rfl⟩,
   ⟨by decide, band_label_fallback.2.1 ["red"] 1 (by decide)⟩,
   band_label_fallback.2.2 (Tiff.mk "t" none 3 [some [[(true, Pix.fin 1)]]]) (some ["red"])⟩

/-- C1 (amended): pixels of the cropped window outside the geometry are
not dropped but replaced by the fill value, so (i) every window pixel,
inside or outside the geometry, contributes to `count`; (ii) with a
declared sentinel, outside pixels are filled with the sentinel and thereby
classified invalid: the valid set — the only data entering
min/max/mean/std — is exactly the inside pixels whose value differs from
the sentinel, so outside pixels contribute to `invalid` but never to
`valid` or the statistics; (iii) with no declared sentinel the fill value
is 0, which is finite, so every outside pixel is classified *valid* and
does enter the statistics. -/
theorem window_pixel_accounting :
    (∀ (nodata : Option ℚ) (w : Window),
        (statsOfData nodata (maskFill nodata w)).count = w.length) ∧
    (∀ (nd : ℚ) (w : Window),
        (maskFill (some nd) w).filter (isValidPix (some nd)) =
          ((w.filter (fun p => p.1)).map Prod.snd).filter
            (fun p => decide (p ≠ Pix.fin nd))) ∧
    (∀ w : Window,
        ((maskFill none w).filter (isValidPix none)).length =
          (w.filter (fun p => p.1 = false)).length +
            (((w.filter (fun p => p.1)).map Prod.snd).filter Pix.isFinite).length) := by
  refine ⟨?_, ?_, ?_⟩
  · intro nodata w
    rw [statsOfData_count]
    exact List.length_map _ _
  · intro nd w
    induction w with
    | nil => rfl
    | cons hd tl ih =>
      obtain ⟨b, p⟩ := hd
      cases b with
      | true =>
        by_cases hp : p = Pix.fin nd <;>
          simp [maskFill, isValidPix, hp] at ih ⊢ <;> exact ih
      | false =>
        simpa [maskFill, isValidPix] using ih
  · intro w
    induction w with
    | nil => rfl
    | cons hd tl ih =>
      obtain ⟨b, p⟩ := hd
      cases b with
      | true =>
        cases p with
        | fin q =>
          simp [maskFill, isValidPix, Pix.isFinite] at ih ⊢
          omega
        | nonfin =>
          simp [maskFill, isValidPix, Pix.isFinite] at ih ⊢
          omega
      | false =>
        simp [maskFill, isValidPix, Pix.isFinite] at ih ⊢
        omega

/-- C1 counterexample: a cropped window with one pixel inside the
geometry (value 5) and one outside it (stored value 7), sentinel -9999.
The claim says the outside pixel is excluded from the extracted set and
contributes to none of the counts, which would give `count = 1` and
`invalid = 0`; the code fills it with the sentinel and reports
`count = 2`, `invalid = 1`. -/
theorem window_pixel_counterexample :
    (([(true, Pix.fin 5), (false, Pix.fin 7)] : Window).filter (fun p => p.1)).length = 1 ∧
    (geomBandStats (some (-9999)) 1
      (some [[(true, Pix.fin 5), (false, Pix.fin 7)]])).count = 2 ∧
    (geomBandStats (some (-9999)) 1
      (some [[(true, Pix.fin 5), (false, Pix.fin 7)]])).invalid = 1 := by
  refine ⟨rfl, by decide, by decide⟩

/-! Order lemmas for the statistics of a finite valid-pixel list. -/

theorem foldl_min_le_init (a : ℚ) (l : List ℚ) : l.foldl min a ≤ a := by
  induction l generalizing a with
  | nil => exact le_refl a
  | cons q qs ih => exact le_trans (ih (min a q)) (min_le_left a q)

theorem foldl_min_le_mem (a x : ℚ) (l : List ℚ) (hx : x ∈ l) : l.foldl min a ≤ x := by
  induction l generalizing a with
  | nil => cases hx
  | cons q qs ih =>
    rcases List.mem_cons.mp hx with h | h
    · subst h
      exact le_trans (foldl_min_le_init (min a x) qs) (min_le_right a x)
    · exact ih (min a q) h

theorem init_le_foldl_max (a : ℚ) (l : List ℚ) : a ≤ l.foldl max a := by
  induction l generalizing a with
  | nil => exact le_refl a
  | cons q qs ih => exact le_trans (le_max_left a q) (ih (max a q))

theorem mem_le_foldl_max (a x : ℚ) (l : List ℚ) (hx : x ∈ l) : x ≤ l.foldl max a := by
  induction l generalizing a with
  | nil => cases hx
  | cons q qs ih =>
    rcases List.mem_cons.mp hx with h | h
    · subst h
      exact le_trans (le_max_right a x) (init_le_foldl_max (max a x) qs)
    · exact ih (max a q) h

theorem length_mul_le_sum (l : List ℚ) (m : ℚ) (h : ∀ x ∈ l, m ≤ x) :
    (l.length : ℚ) * m ≤ l.sum := by
  induction l with
  | nil => simp
  | cons q qs ih =>
    have hq : m ≤ q := h q (List.mem_cons_self q qs)
    have hqs : (qs.length : ℚ) * m ≤ qs.sum :=
      ih (fun x hx => h x (List.mem_cons_of_mem q hx))
    simp only [List.sum_cons, List.length_cons]
    push_cast
    linarith [hq, hqs]

theorem sum_le_length_mul (l : List ℚ) (M : ℚ) (h : ∀ x ∈ l, x ≤ M) :
    l.sum ≤ (l.length : ℚ) * M := by
  induction l with
  | nil => simp
  | cons q qs ih =>
    have hq : q ≤ M := h q (List.mem_cons_self q qs)
    have hqs : qs.sum ≤ (qs.length : ℚ) * M :=
      ih (fun x hx => h x (List.mem_cons_of_mem q hx))
    simp only [List.sum_cons, List.length_cons]
    push_cast
    linarith [hq, hqs]

theorem popVar_nonneg (l : List ℚ) : 0 ≤ popVar l := by
  unfold popVar
  refine div_nonneg (List.sum_nonneg ?_) (Nat.cast_nonneg _)
  intro x hx
  obtain ⟨y, _, rfl⟩ := List.mem_map.mp hx
  positivity

theorem finParts_of_allFinite (l : List Pix) (h : allFinite l = true) :
    l = (finParts l).map Pix.fin := by
  induction l with
  | nil => rfl
  | cons p ps ih =>
    rw [allFinite, List.all_cons, Bool.and_eq_true] at h
    cases p with
    | fin q => simp [finParts, List.filterMap_cons] at ih ⊢; exact ih h.2
    | nonfin => cases h.1

theorem statsOfData_pos (nodata : Option ℚ) (data : List Pix)
    (h : data.filter (isValidPix nodata) ≠ []) :
    statsOfData nodata data =
      { min := some (npMin (data.filter (isValidPix nodata))),
        max := some (npMax (data.filter (isValidPix nodata))),
        mean := some (npMean (data.filter (isValidPix nodata))),
        stdSq := some (npVarSq (data.filter (isValidPix nodata))),
        count := data.length,
        valid := (data.filter (isValidPix nodata)).length,
        invalid := data.length - (data.filter (isValidPix nodata)).length } := by
  by_cases hc : (data.filter (isValidPix nodata)).length = 0
  · exact absurd (List.length_eq_zero.mp hc) h
  · simp [statsOfData, hc]

theorem npMin_eq (l : List Pix) (q : ℚ) (qs : List ℚ) (hfin : allFinite l = true)
    (hfp : finParts l = q :: qs) : npMin l = .fin (qs.foldl min q) := by
  rw [npMin, if_pos hfin, hfp]

theorem npMax_eq (l : List Pix) (q : ℚ) (qs : List ℚ) (hfin : allFinite l = true)
    (hfp : finParts l = q :: qs) : npMax l = .fin (qs.foldl max q) := by
  rw [npMax, if_pos hfin, hfp]

/-- The property C9 claims of a statistics record computed from at least
one valid pixel: the four statistics are (finite) numbers satisfying
`min ≤ mean ≤ max`, and the variance — the square of the population
standard deviation — is nonnegative (so `std = √variance` is a
well-defined nonnegative number). -/
def claimedStats (s : BandStats) : Prop :=
  ∃ m μ M v : ℚ,
    s.min = some (Pix.fin m) ∧ s.max = some (Pix.fin M) ∧
    s.mean = some (Pix.fin μ) ∧ s.stdSq = some (Pix.fin v) ∧
    m ≤ μ ∧ μ ≤ M ∧ 0 ≤ v

/-- C9 (amended): for a band/geometry pair whose valid-pixel set is
nonempty and consists of finite values only (automatic when no nodata
sentinel is declared, since the finite-value test screens the pixels; an
assumption when a sentinel is declared, because a NaN pixel then passes
the `!= nodata` test), the statistics are finite numbers with
`min ≤ mean ≤ max` and nonnegative population variance. -/
theorem stats_ordered (nodata : Option ℚ) (band : Nat) (windows : List Window)
    (hne : (maskFill nodata (windows.getD (band - 1) [])).filter (isValidPix nodata) ≠ [])
    (hfin : allFinite
      ((maskFill nodata (windows.getD (band - 1) [])).filter (isValidPix nodata)) = true) :
    claimedStats (geomBandStats nodata band (some windows)) := by
  rw [geomBandStats, statsOfData_pos nodata _ hne]
  set vd := (maskFill nodata (windows.getD (band - 1) [])).filter (isValidPix nodata) with hvd
  have hmapfin : vd = (finParts vd).map Pix.fin := finParts_of_allFinite vd hfin
  obtain ⟨q, qs, hfp⟩ : ∃ q qs, finParts vd = q :: qs := by
    cases hfp : finParts vd with
    | nil => rw [hfp, List.map_nil] at hmapfin; exact absurd hmapfin hne
    | cons q qs => exact ⟨q, qs, rfl⟩
  have hlenpos : (0 : ℚ) < ((finParts vd).length : ℚ) := by
    rw [hfp]
    exact_mod_cast Nat.succ_pos qs.length
  refine ⟨qs.foldl min q, (finParts vd).sum / ((finParts vd).length : ℚ),
    qs.foldl max q, popVar (finParts vd), ?_, ?_, ?_, ?_, ?_, ?_, ?_⟩
  · rw [npMin_eq vd q qs hfin hfp]
  · rw [npMax_eq vd q qs hfin hfp]
  · rw [npMean, if_pos hfin]
  · rw [npVarSq, if_pos hfin]
  · rw [le_div_iff₀ hlenpos, mul_comm]
    have hall : ∀ x ∈ finParts vd, qs.foldl min q ≤ x := by
      intro x hx
      rw [hfp] at hx
      rcases List.mem_cons.mp hx with h | h
      · rw [h]; exact foldl_min_le_init q qs
      · exact foldl_min_le_mem q x qs h
    exact length_mul_le_sum (finParts vd) (qs.foldl min q) hall
  · rw [div_le_iff₀ hlenpos, mul_comm]
    have hall : ∀ x ∈ finParts vd, x ≤ qs.foldl max q := by
      intro x hx
      rw [hfp] at hx
      rcases List.mem_cons.mp hx with h | h
      · rw [h]; exact init_le_foldl_max q qs
      · exact mem_le_foldl_max q x qs h
    have := sum_le_length_mul (finParts vd) (qs.foldl max q) hall
    linarith
  · exact popVar_nonneg (finParts vd)

theorem stats_ordered_witness :
    ((maskFill none (([[(true, Pix.fin 1), (true, Pix.fin 3)]] : List Window).getD 0 [])).filter
        (isValidPix none) ≠ [] ∧
     allFinite ((maskFill none (([[(true, Pix.fin 1), (true, Pix.fin 3)]] : List Window).getD 0
        [])).filter (isValidPix none)) = true) ∧
    claimedStats (geomBandStats none 1 (some [[(true, Pix.fin 1), (true, Pix.fin 3)]])) :=
  ⟨⟨by decide, by decide⟩,
   stats_ordered none 1 [[(true, Pix.fin 1), (true, Pix.fin 3)]] (by decide) (by decide)⟩

/-- C9 counterexample: a raster with nodata sentinel -9999 and a single
in-geometry pixel holding NaN.  The NaN pixel passes the `!= nodata`
validity test, so `valid = 1 > 0`, yet `np.min/max/mean/std` all return
NaN: the statistics are not numbers, so `min ≤ mean ≤ max` and `std ≥ 0`
fail (NaN comparisons are false). -/
theorem stats_ordered_counterexample :
    (geomBandStats (some (-9999)) 1 (some [[(true, Pix.nonfin)]])).valid = 1 ∧
    (geomBandStats (some (-9999)) 1 (some [[(true, Pix.nonfin)]])).mean = some Pix.nonfin ∧
    ¬ claimedStats (geomBandStats (some (-9999)) 1 (some [[(true, Pix.nonfin)]])) := by
  refine ⟨by decide, by decide, ?_⟩
  rintro ⟨m, μ, M, v, hmin, hrest⟩
  have h : (geomBandStats (some (-9999)) 1 (some [[(true, Pix.nonfin)]])).min =
      some Pix.nonfin := by decide
  rw [h] at hmin
  exact Pix.noConfusion (Option.some.inj hmin)

/-! Python dict lemmas for the time-series normalization. -/

theorem dictInsert_of_not_mem (d : List (String × PyVal)) (k : String) (v : PyVal)
    (h : k ∉ d.map Prod.fst) : dictInsert d k v = d ++ [(k, v)] := by
  rw [dictInsert, if_neg]
  simpa using h

theorem dictMerge_of_disjoint (acc e : List (String × PyVal))
    (hdis : ∀ p ∈ e, p.1 ∉ acc.map Prod.fst)
    (hnd : (e.map Prod.fst).Nodup) :
    dictMerge acc e = acc ++ e := by
  induction e generalizing acc with
  | nil => simp [dictMerge]
  | cons p ps ih =>
    have h1 : dictInsert acc p.1 p.2 = acc ++ [p] := by
      rw [dictInsert_of_not_mem acc p.1 p.2 (hdis p (List.mem_cons_self p ps))]
    have hstep : dictMerge acc (p :: ps) = dictMerge (dictInsert acc p.1 p.2) ps := rfl
    rw [hstep, h1]
    rw [List.map_cons, List.nodup_cons] at hnd
    have hdis2 : ∀ r ∈ ps, r.1 ∉ (acc ++ [p]).map Prod.fst := by
      intro r hr
      rw [List.map_append, List.mem_append]
      rintro (hacc | hp)
      · exact hdis r (List.mem_cons_of_mem p hr) hacc
      · rcases List.mem_singleton.mp (by simpa using hp) with h
        exact hnd.1 (h ▸ List.mem_map_of_mem Prod.fst hr)
    rw [ih (acc ++ [p]) hdis2 hnd.2]
    simp

theorem convert_ts_dict_ok (d : List (String × PyVal))
    (hv : ∀ kv ∈ d, ∃ e, kv.2 = PyVal.dict e) :
    ∃ l, convert_ts (.dict d) = .ok (.list l) ∧ l.length = d.length ∧
      ∀ (k : String) (e : List (String × PyVal)),
        (k, PyVal.dict e) ∈ d →
        PyVal.dict (dictMerge [("date", PyVal.str k)] e) ∈ l := by
  induction d with
  | nil => exact ⟨[], rfl, rfl, by simp⟩
  | cons kv rest ih =>
    obtain ⟨e0, he0⟩ := hv kv (List.mem_cons_self kv rest)
    obtain ⟨l', h1, h2, h3⟩ := ih (fun r hr => hv r (List.mem_cons_of_mem kv hr))
    have hmap : rest.mapM entryOfPair = .ok l' := by
      rw [convert_ts] at h1
      cases hm : rest.mapM entryOfPair with
      | error e => rw [hm] at h1; cases h1
      | ok x =>
        rw [hm] at h1
        cases h1
        rfl
    have hentry : entryOfPair kv = .ok (.dict (dictMerge [("date", .str kv.1)] e0)) := by
      rw [entryOfPair, he0]
    refine ⟨.dict (dictMerge [("date", .str kv.1)] e0) :: l', ?_, by simp [h2], ?_⟩
    · rw [convert_ts, List.mapM_cons, hentry, hmap]
      rfl
    · intro k e hke
      rcases List.mem_cons.mp hke with h | h
      · have hk : kv.1 = k := congrArg Prod.fst h.symm
        have he : kv.2 = PyVal.dict e := congrArg Prod.snd h.symm
        rw [he0] at he
        cases PyVal.dict.inj he
        rw [hk]
        exact List.mem_cons_self _ _
      · exact List.mem_cons_of_mem _ (h3 k e h)

/-- C7 (amended): a date-keyed mapping whose values are records (dicts)
is converted to a sequence with one `{date: key, ...record-fields}` entry
per mapping key, in key order; when a record does not itself contain a
`date` field, its date/record pair is preserved verbatim (a record-level
`date` field instead overwrites the mapping key — see the counterexample);
a value that is already a sequence passes through unchanged, so
normalization is idempotent; any other shape becomes the empty sequence. -/
theorem convert_ts_spec :
    (∀ (d : List (String × PyVal)),
        (∀ kv ∈ d, ∃ e, kv.2 = PyVal.dict e) →
        ∃ l, convert_ts (.dict d) = .ok (.list l) ∧ l.length = d.length ∧
          ∀ (k : String) (e : List (String × PyVal)),
            (k, PyVal.dict e) ∈ d → (e.map Prod.fst).Nodup →
            "date" ∉ e.map Prod.fst →
            PyVal.dict (("date", PyVal.str k) :: e) ∈ l) ∧
    (∀ l : List PyVal, convert_ts (.list l) = .ok (.list l)) ∧
    (∀ s, convert_ts (.str s) = .ok (.list [])) ∧
    (∀ q, convert_ts (.num q) = .ok (.list [])) ∧
    convert_ts .none_ = .ok (.list []) ∧
    convert_ts .nonfin = .ok (.list []) ∧
    (∀ v w, convert_ts v = .ok w → convert_ts w = .ok w) := by
  refine ⟨?_, fun l => rfl, fun s => rfl, fun q => rfl, rfl, rfl, ?_⟩
  · intro d hv
    obtain ⟨l, h1, h2, h3⟩ := convert_ts_dict_ok d hv
    refine ⟨l, h1, h2, ?_⟩
    intro k e hke hnd hdate
    have hdis : ∀ p ∈ e, p.1 ∉ ([("date", PyVal.str k)].map Prod.fst) := by
      intro p hp
      simp only [List.map_cons, List.map_nil, List.mem_singleton]
      intro hcon
      exact hdate (hcon ▸ List.mem_map_of_mem Prod.fst hp)
    have := h3 k e hke
    rwa [dictMerge_of_disjoint _ e hdis hnd] at this
  · intro v w h
    cases v with
    | str s => cases h; rfl
    | num q => cases h; rfl
    | none_ => cases h; rfl
    | nonfin => cases h; rfl
    | list l => cases h; rfl
    | dict d =>
      rw [convert_ts] at h
      cases hm : d.mapM entryOfPair with
      | error e => rw [hm] at h; cases h
      | ok x =>
        rw [hm] at h
        cases h
        rfl

theorem convert_ts_spec_witness :
    ((("2023-01-01", PyVal.dict [("band_1_mean", PyVal.num 3)]) ∈
        ([("2023-01-01", PyVal.dict [("band_1_mean", PyVal.num 3)])] :
          List (String × PyVal))) ∧
     ((([("band_1_mean", PyVal.num 3)] : List (String × PyVal)).map Prod.fst).Nodup) ∧
     ("date" ∉ ([("band_1_mean", PyVal.num 3)] : List (String × PyVal)).map Prod.fst)) ∧
    (∃ l, convert_ts (.dict [("2023-01-01", PyVal.dict [("band_1_mean", PyVal.num 3)])]) =
        .ok (.list l) ∧
      l.length = 1 ∧
      ∀ (k : String) (e : List (String × PyVal)),
        (k, PyVal.dict e) ∈
            ([("2023-01-01", PyVal.dict [("band_1_mean", PyVal.num 3)])] :
              List (String × PyVal)) →
        (e.map Prod.fst).Nodup → "date" ∉ e.map Prod.fst →
        PyVal.dict (("date", PyVal.str k) :: e) ∈ l) :=
  ⟨⟨List.mem_cons_self _ _, by simp, by simp⟩,
   convert_ts_spec.1 [("2023-01-01", PyVal.dict [("band_1_mean", PyVal.num 3)])]
     (fun kv hkv => ⟨[("band_1_mean", PyVal.num 3)], by
       rcases List.mem_singleton.mp hkv with h
       rw [h]⟩)⟩

/-- C7 counterexample: a legacy mapping entry whose record itself holds a
`date` field.  `{"date": k, **v}` lets the record's own `date` value
overwrite the mapping key, so the pair
`("2023-01-01", {"date": "1999-12-31"})` is *not* preserved: the produced
entry's date is `"1999-12-31"`, and the mapping key `"2023-01-01"` is lost. -/
theorem convert_ts_counterexample :
    convert_ts (.dict [("2023-01-01", .dict [("date", .str "1999-12-31")])]) =
      .ok (.list [.dict [("date", .str "1999-12-31")]]) ∧
    ("1999-12-31" : String) ≠ "2023-01-01" :=
  ⟨rfl, by decide⟩

/-! Lemmas on the per-raster compiler. -/

theorem compute_statistics_getElem? (t : Tiff) (names : Option (List String)) (j : Nat)
    (hj : j < t.geoms.length) (g : Geom) (hg : t.geoms[j]? = some g) :
    (compute_statistics t names)[j]? =
      some ((List.range t.count).foldl
        (fun acc i =>
          dictMerge acc (bandDict t.nodata (bandLabel names i (i + 1)) (i + 1) g)) []) := by
  rw [compute_statistics]
  simp only [List.getElem?_map, List.getElem?_range hj, Option.map_some']
  rw [List.foldl_map]
  simp only [List.getD_eq_getElem?_getD, List.getElem?_map, hg, Option.map_some',
    Option.getD_some]

theorem mem_maskWarnings (t : Tiff) (idx : Nat) (hc : 0 < t.count)
    (h : t.geoms[idx]? = some none) : idx ∈ maskWarnings t := by
  rw [maskWarnings, List.mem_flatten]
  refine ⟨(t.geoms.enum.filter (fun p => p.2.isNone)).map Prod.fst, ?_, ?_⟩
  · exact List.mem_map.mpr ⟨0, List.mem_range.mpr hc, rfl⟩
  · refine List.mem_map.mpr ⟨(idx, none), ?_, rfl⟩
    refine List.mem_filter.mpr ⟨?_, rfl⟩
    exact List.mk_mem_enum_iff_getElem?.mpr h

theorem dictInsert_values (S : PyVal → Prop) (d : List (String × PyVal)) (k : String)
    (v : PyVal) (hd : ∀ kv ∈ d, S kv.2) (hv : S v) :
    ∀ kv ∈ dictInsert d k v, S kv.2 := by
  intro kv hkv
  rw [dictInsert] at hkv
  by_cases hc : (d.map Prod.fst).contains k
  · rw [if_pos hc] at hkv
    obtain ⟨p, hp, hpe⟩ := List.mem_map.mp hkv
    by_cases hpk : p.1 = k
    · rw [if_pos hpk] at hpe
      rw [← hpe]
      exact hv
    · rw [if_neg hpk] at hpe
      exact hpe ▸ hd p hp
  · rw [if_neg hc] at hkv
    rcases List.mem_append.mp hkv with hin | hin
    · exact hd kv hin
    · rcases List.mem_singleton.mp hin with h
      rw [h]
      exact hv

theorem dictMerge_values (S : PyVal → Prop) (d e : List (String × PyVal))
    (hd : ∀ kv ∈ d, S kv.2) (he : ∀ kv ∈ e, S kv.2) :
    ∀ kv ∈ dictMerge d e, S kv.2 := by
  induction e generalizing d with
  | nil => exact hd
  | cons p ps ih =>
    have hstep : dictMerge d (p :: ps) = dictMerge (dictInsert d p.1 p.2) ps := rfl
    rw [hstep]
    exact ih (dictInsert d p.1 p.2)
      (dictInsert_values S d p.1 p.2 hd (he p (List.mem_cons_self p ps)))
      (fun r hr => he r (List.mem_cons_of_mem p hr))

theorem foldl_dictMerge_values {α : Type} (S : PyVal → Prop) (L : List α)
    (f : α → List (String × PyVal)) (acc : List (String × PyVal))
    (ha : ∀ kv ∈ acc, S kv.2) (hf : ∀ a ∈ L, ∀ kv ∈ f a, S kv.2) :
    ∀ kv ∈ L.foldl (fun acc a => dictMerge acc (f a)) acc, S kv.2 := by
  induction L generalizing acc with
  | nil => exact ha
  | cons a as ih =>
    rw [List.foldl_cons]
    exact ih (dictMerge acc (f a))
      (dictMerge_values S acc (f a) ha (hf a (List.mem_cons_self a as)))
      (fun r hr => hf r (List.mem_cons_of_mem a hr))

theorem compute_statistics_length (t : Tiff) (names : Option (List String)) :
    (compute_statistics t names).length = t.geoms.length := by
  simp [compute_statistics]

/-- C5: when `mask` raises for one geometry, the run is not aborted: the
compiler still emits one combined record per feature, a warning naming
the failing geometry's index is logged, the record substituted for that
geometry carries only `None` statistics and zero counts (for every band),
and the record of every other geometry is exactly what it would be with
any other data in the failing slot (the failure is an isolated fault). -/
theorem mask_failure_isolated (t : Tiff) (names : Option (List String)) (idx : Nat)
    (hidx : t.geoms[idx]? = some none) (hc : 0 < t.count) :
    (compute_statistics t names).length = t.geoms.length ∧
    idx ∈ maskWarnings t ∧
    (∃ rec, (compute_statistics t names)[idx]? = some rec ∧
      ∀ kv ∈ rec, kv.2 = PyVal.none_ ∨ kv.2 = PyVal.num 0) ∧
    (∀ (g' : Geom) (j : Nat), j ≠ idx →
      (compute_statistics { t with geoms := t.geoms.set idx g' } names)[j]? =
        (compute_statistics t names)[j]?) := by
  have hlt : idx < t.geoms.length := by
    by_contra hge
    rw [List.getElem?_eq_none (Nat.le_of_not_lt hge)] at hidx
    cases hidx
  refine ⟨compute_statistics_length t names, mem_maskWarnings t idx hc hidx, ?_, ?_⟩
  · refine ⟨_, compute_statistics_getElem? t names idx hlt none hidx, ?_⟩
    have hf : ∀ i ∈ List.range t.count,
        ∀ kv ∈ bandDict t.nodata (bandLabel names i (i + 1)) (i + 1) none,
          kv.2 = PyVal.none_ ∨ kv.2 = PyVal.num 0 := by
      intro i hi kv hkv
      have he : bandDict t.nodata (bandLabel names i (i + 1)) (i + 1) none =
          bandStatsToDict (bandLabel names i (i + 1)) failRecord := rfl
      rw [he, bandStatsToDict] at hkv
      simp only [List.mem_cons, List.not_mem_nil, or_false] at hkv
      rcases hkv with h | h | h | h | h | h | h <;> rw [h] <;>
        simp [failRecord, optPixToPy]
    exact foldl_dictMerge_values (fun v => v = PyVal.none_ ∨ v = PyVal.num 0)
      (List.range t.count)
      (fun i => bandDict t.nodata (bandLabel names i (i + 1)) (i + 1) none) []
      (fun kv h => absurd h (List.not_mem_nil kv)) hf
  · intro g' j hj
    by_cases hjl : j < t.geoms.length
    · have hjl2 : j < (t.geoms.set idx g').length := by simpa using hjl
      obtain ⟨gj, hgj⟩ : ∃ gj, t.geoms[j]? = some gj :=
        ⟨t.geoms[j], (List.getElem?_eq_some.mpr ⟨hjl, rfl⟩)⟩
      have hgj2 : (t.geoms.set idx g')[j]? = some gj := by
        rw [List.getElem?_set_ne (fun h => hj h.symm)]
        exact hgj
      rw [compute_statistics_getElem? { t with geoms := t.geoms.set idx g' } names j hjl2 gj hgj2,
        compute_statistics_getElem? t names j hjl gj hgj]
    · have h1 : (compute_statistics t names)[j]? = none := by
        apply List.getElem?_eq_none
        rw [compute_statistics_length]
        exact Nat.le_of_not_lt hjl
      have h2 : (compute_statistics { t with geoms := t.geoms.set idx g' } names)[j]? = none := by
        apply List.getElem?_eq_none
        rw [compute_statistics_length]
        simpa using Nat.le_of_not_lt hjl
      rw [h1, h2]

theorem mask_failure_isolated_witness :
    ((Tiff.mk "t.tif" (some 0) 1 [none]).geoms[0]? = some none ∧
      0 < (Tiff.mk "t.tif" (some 0) 1 [none]).count) ∧
    ((compute_statistics (Tiff.mk "t.tif" (some 0) 1 [none]) none).length =
        (Tiff.mk "t.tif" (some 0) 1 [none]).geoms.length ∧
      0 ∈ maskWarnings (Tiff.mk "t.tif" (some 0) 1 [none]) ∧
      (∃ rec, (compute_statistics (Tiff.mk "t.tif" (some 0) 1 [none]) none)[0]? = some rec ∧
        ∀ kv ∈ rec, kv.2 = PyVal.none_ ∨ kv.2 = PyVal.num 0) ∧
      (∀ (g' : Geom) (j : Nat), j ≠ 0 →
        (compute_statistics
            { Tiff.mk "t.tif" (some 0) 1 [none] with
              geoms := (Tiff.mk "t.tif" (some 0) 1 [none]).geoms.set 0 g' } none)[j]? =
          (compute_statistics (Tiff.mk "t.tif" (some 0) 1 [none]) none)[j]?)) :=
  ⟨⟨rfl, Nat.zero_lt_one⟩,
   mask_failure_isolated (Tiff.mk "t.tif" (some 0) 1 [none]) none 0 rfl Nat.zero_lt_one⟩

/-! Lemmas on the multi-raster time-series loop. -/

theorem appendEntries_length (key : String) (stats : List (List (String × PyVal)))
    (tss : List (List PyVal)) : (appendEntries key stats tss).length = tss.length := by
  induction stats generalizing tss with
  | nil => cases tss <;> rfl
  | cons st sts ih =>
    cases tss with
    | nil => rfl
    | cons ts rest =>
      have hstep : appendEntries key (st :: sts) (ts :: rest) =
          (ts ++ [mkEntryPy key st]) :: appendEntries key sts rest := rfl
      rw [hstep, List.length_cons, List.length_cons, ih rest]

theorem appendEntries_getElem? (key : String) (stats : List (List (String × PyVal)))
    (tss : List (List PyVal)) (i : Nat) (ts : List PyVal) (st : List (String × PyVal))
    (hts : tss[i]? = some ts) (hst : stats[i]? = some st) :
    (appendEntries key stats tss)[i]? = some (ts ++ [mkEntryPy key st]) := by
  induction stats generalizing tss i with
  | nil => rw [List.getElem?_nil] at hst; cases hst
  | cons st0 sts ih =>
    cases tss with
    | nil => rw [List.getElem?_nil] at hts; cases hts
    | cons ts0 rest =>
      have hstep : appendEntries key (st0 :: sts) (ts0 :: rest) =
          (ts0 ++ [mkEntryPy key st0]) :: appendEntries key sts rest := rfl
      cases i with
      | zero =>
        rw [List.getElem?_cons_zero] at hts hst
        cases hts
        cases hst
        rw [hstep, List.getElem?_cons_zero]
      | succ m =>
        rw [List.getElem?_cons_succ] at hts hst
        rw [hstep, List.getElem?_cons_succ]
        exact ih rest m hts hst

theorem processTiffs_spec (names : Option (List String)) (tiffs : List Tiff)
    (keys : List String)
    (hk : List.Forall₂ (fun (t : Tiff) (k : String) => dateKey t.name = .ok k) tiffs keys) :
    ∀ (tss : List (List PyVal)),
      (∀ t ∈ tiffs, t.geoms.length = tss.length) →
      ∃ out, processTiffs names tss tiffs = .ok out ∧ out.length = tss.length ∧
        ∀ (i : Nat) (ts : List PyVal), tss[i]? = some ts →
          out[i]? = some (ts ++ List.zipWith
            (fun t k => mkEntryPy k ((compute_statistics t names).getD i [])) tiffs keys) := by
  induction hk with
  | nil =>
    intro tss _
    exact ⟨tss, rfl, rfl, fun i ts hts => by simpa using hts⟩
  | @cons t k tiffs2 keys2 h1 h2 ih =>
    intro tss hg
    have hlen1 : (appendEntries k (compute_statistics t names) tss).length = tss.length :=
      appendEntries_length k (compute_statistics t names) tss
    obtain ⟨out, hout, hlen, hpt⟩ := ih (appendEntries k (compute_statistics t names) tss)
      (fun t2 ht2 => by rw [hlen1]; exact hg t2 (List.mem_cons_of_mem t ht2))
    refine ⟨out, ?_, by rw [hlen, hlen1], ?_⟩
    · have hstep : processTiffs names tss (t :: tiffs2) =
          match dateKey t.name with
          | .error e => .error e
          | .ok key => processTiffs names (appendEntries key (compute_statistics t names) tss)
              tiffs2 := rfl
      rw [hstep, h1]
      exact hout
    · intro i ts hts
      have hi : i < tss.length := by
        by_contra hge
        rw [List.getElem?_eq_none (Nat.le_of_not_lt hge)] at hts
        cases hts
      have hslen : (compute_statistics t names).length = tss.length := by
        rw [compute_statistics_length]
        exact hg t (List.mem_cons_self t tiffs2)
      have hst : (compute_statistics t names)[i]? = some ((compute_statistics t names).getD i []) := by
        rw [List.getD_eq_getElem?_getD]
        rw [List.getElem?_eq_getElem (by rw [hslen]; exact hi)]
        rfl
      have happ := appendEntries_getElem? k (compute_statistics t names) tss i ts _ hts hst
      have := hpt i _ happ
      rw [this]
      rw [List.zipWith_cons_cons, List.append_assoc]
      rfl

/-- C8: in multi-raster mode, starting from an empty series for each of
the `n` features, processing the raster list (each with a derivable date
key and one mask outcome per feature) appends exactly one entry per
raster to every feature's series, in raster-processing order, each entry
being the dict `{date: key}` updated with that feature's combined
statistics record for that raster — length `N`, no deduplication and no
overwrite by date. -/
theorem timeseries_append (names : Option (List String)) (tiffs : List Tiff)
    (keys : List String) (n : Nat)
    (hk : List.Forall₂ (fun (t : Tiff) (k : String) => dateKey t.name = .ok k) tiffs keys)
    (hg : ∀ t ∈ tiffs, t.geoms.length = n) :
    processTiffs names (List.replicate n []) tiffs =
      .ok ((List.range n).map (fun i => List.zipWith
        (fun t k => mkEntryPy k ((compute_statistics t names).getD i [])) tiffs keys)) := by
  obtain ⟨out, hout, hlen, hpt⟩ := processTiffs_spec names tiffs keys hk
    (List.replicate n []) (by simpa using hg)
  rw [hout]
  congr 1
  apply List.ext_getElem?
  intro i
  by_cases hi : i < n
  · have hrep : (List.replicate n ([] : List PyVal))[i]? = some [] := by
      rw [List.getElem?_replicate, if_pos hi]
    rw [hpt i [] hrep, List.getElem?_map, List.getElem?_range hi]
    simp
  · rw [List.getElem?_eq_none, List.getElem?_eq_none]
    · rw [List.length_map, List.length_range]
      exact Nat.le_of_not_lt hi
    · rw [hlen, List.length_replicate]
      exact Nat.le_of_not_lt hi

theorem timeseries_append_witness :
    processTiffs none (List.replicate 1 [])
        [Tiff.mk "a_20230101.tif" (some (-1)) 1 [some [[(true, Pix.fin 2)]]],
         Tiff.mk "b_20230201.tif" (some (-1)) 1 [some [[(true, Pix.fin 4)]]]] =
      .ok ((List.range 1).map (fun i => List.zipWith
        (fun t k => mkEntryPy k ((compute_statistics t none).getD i []))
        [Tiff.mk "a_20230101.tif" (some (-1)) 1 [some [[(true, Pix.fin 2)]]],
         Tiff.mk "b_20230201.tif" (some (-1)) 1 [some [[(true, Pix.fin 4)]]]]
        ["2023-01-01", "2023-02-01"])) :=
  timeseries_append none
    [Tiff.mk "a_20230101.tif" (some (-1)) 1 [some [[(true, Pix.fin 2)]]],
     Tiff.mk "b_20230201.tif" (some (-1)) 1 [some [[(true, Pix.fin 4)]]]]
    ["2023-01-01", "2023-02-01"] 1
    (List.Forall₂.cons rfl (List.Forall₂.cons rfl List.Forall₂.nil))
    (by decide)
